import Mathlib

/-
  Verification of the wlsplit speedrun-split timer against its design
  specification.

  The development shallowly embeds the Rust sources:
  * `src/time_format.rs`   — millisecond formatting (`TimeFormat::format_time`,
    `pad_zeroes`),
  * `src/wl_split_timer.rs` — time-string parsing and the derived timer
    queries (`parse_time_string`, `sum_of_best_segments`,
    `best_possible_time`, `get_segment_time`) plus the command wrappers
    (`start`, `split`, `skip`, `pause`, `reset`, `quit`),
  * `src/file.rs`           — the persisted run document (`Run::new`),
  * `src/display/smithay/smithay.rs`  — the damage-tracked renderer
    (`Surface::draw`, `draw_segment_time`, `diff_time`),
  * `src/display/terminal/terminal.rs` — the terminal front-end's
    `diff_time`.

  Machine integers are modelled as `Nat` (all quantities involved are
  unsigned in the source; where the source casts a possibly negative `i64`
  to `usize`, the wrap-around is made explicit).  Rust strings are
  modelled as `List Char`.  Fallible operations return `Option`.  Glyph
  rasterization is out of scope of the specification ("rasterize string S,
  report advance width"), so text advance width enters the renderer
  embedding as an explicit oracle parameter `tw : List Char → Nat`.
-/

namespace Wlsplit

/-! ## Decimal strings

`natChars` embeds Rust's `u128::to_string` (decimal, most significant
digit first), and `parseU128` embeds `str::parse::<u128>` (optional
leading `+`, at least one digit, all digits, value must fit in 128 bits).
-/

/-- Fuel-driven core of `natChars` (structural recursion so that concrete
inputs evaluate inside the kernel). -/
def natCharsCore : Nat → Nat → List Char → List Char
  | 0, _, acc => acc
  | fuel + 1, n, acc =>
    if n < 10 then Nat.digitChar n :: acc
    else natCharsCore fuel (n / 10) (Nat.digitChar (n % 10) :: acc)

/-- Decimal digit characters of `n`, most significant first: the embedding
of Rust `u128::to_string()`. -/
def natChars (n : Nat) : List Char :=
  natCharsCore (n + 1) n []

theorem natCharsCore_eq_digits (fuel : Nat) :
    ∀ n acc, 0 < n → n < 10 ^ fuel →
      natCharsCore fuel n acc = ((Nat.digits 10 n).map Nat.digitChar).reverse ++ acc := by
  induction fuel with
  | zero => intro n acc hn hlt; omega
  | succ fuel ih =>
    intro n acc hn hlt
    rw [natCharsCore]
    by_cases h10 : n < 10
    · simp only [if_pos h10]
      rw [Nat.digits_def' (by norm_num : 1 < 10) hn]
      have : n / 10 = 0 := Nat.div_eq_of_lt h10
      rw [this, Nat.mod_eq_of_lt h10]
      simp
    · simp only [if_neg h10]
      have hdiv : 0 < n / 10 := Nat.div_pos (by omega) (by norm_num)
      have hdivlt : n / 10 < 10 ^ fuel := by
        rw [Nat.div_lt_iff_lt_mul (by norm_num)]
        calc n < 10 ^ (fuel + 1) := hlt
        _ = 10 ^ fuel * 10 := by ring
      rw [ih (n / 10) _ hdiv hdivlt, Nat.digits_def' (by norm_num : 1 < 10) hn]
      simp

theorem natChars_eq_digits (n : Nat) :
    natChars n = if n = 0 then ['0'] else ((Nat.digits 10 n).map Nat.digitChar).reverse := by
  by_cases h : n = 0
  · subst h; rfl
  · rw [if_neg h, natChars,
      natCharsCore_eq_digits (n + 1) n [] (by omega)
        (lt_of_lt_of_le (Nat.lt_pow_self (by norm_num) n) (Nat.pow_le_pow_right (by norm_num) (by omega)))]
    simp

/-- Numeric value of a decimal digit character (`'0'` ↦ 0, …). -/
def digitVal (c : Char) : Nat := c.toNat - 48

/-- Drop the optional leading `'+'` accepted by Rust's unsigned
`from_str`. -/
def stripSign (s : List Char) : List Char :=
  match s with
  | [] => []
  | c :: rest => if c = '+' then rest else c :: rest

/-- Embedding of Rust `str::parse::<u128>()`: an optional leading `'+'`,
then a nonempty run of decimal digits; fails on anything else and on
values that do not fit in 128 bits. -/
def parseU128 (s : List Char) : Option Nat :=
  let ds := stripSign s
  if ds = [] then none
  else if ds.all Char.isDigit then
    let v := ds.foldl (fun a c => a * 10 + digitVal c) 0
    if v < 2 ^ 128 then some v else none
  else none

/-- Embedding of Rust `str::split(sep)`: splits into the (always nonempty)
list of chunks between occurrences of `sep`. -/
def splitChar (sep : Char) : List Char → List (List Char)
  | [] => [[]]
  | c :: rest =>
    let r := splitChar sep rest
    if c = sep then [] :: r else (c :: r.headD []) :: r.tail

/-! ## Time formatting (`src/time_format.rs`) -/

def MSEC_HOUR : Nat := 3600000
def MSEC_MINUTE : Nat := 60000
def MSEC_SECOND : Nat := 1000

/-- `TimeFormat` from `src/time_format.rs`.  The last field is called
`always_prefix` in the source; it forces a `+` sign on non-negative
values. -/
structure TimeFormat where
  hours : Nat
  minutes : Nat
  seconds : Nat
  msecs : Nat
  allow_shorten : Bool
  always_sign : Bool
deriving Repr, DecidableEq

/-- `TimeFormat::default()`. -/
def TimeFormat.dflt : TimeFormat :=
  { hours := 2, minutes := 2, seconds := 2, msecs := 3
    allow_shorten := true, always_sign := false }

/-- `TimeFormat::for_diff()`. -/
def TimeFormat.for_diff : TimeFormat := { TimeFormat.dflt with always_sign := true }

/-- `TimeFormat::for_file()`. -/
def TimeFormat.for_file : TimeFormat := { TimeFormat.dflt with allow_shorten := false }

/-- `pad_zeroes` from `src/time_format.rs`: render `time` in decimal and
left-pad with `'0'` up to `len`; a rendering already at least `len` wide
is returned unchanged (no truncation). -/
def pad_zeroes (time len : Nat) : List Char :=
  let s := natChars time
  if len ≤ s.length then s
  else List.replicate (len - s.length) '0' ++ s

/-- `TimeFormat::format_time` from `src/time_format.rs`.  The sign, the
division-with-accumulation-subtraction decomposition and the two
shortened forms follow the source line by line. -/
def TimeFormat.format_time (fmt : TimeFormat) (time : Nat) (negative : Bool) : List Char :=
  let sign : List Char :=
    if negative then ['-'] else if fmt.always_sign then ['+'] else []
  let hours := time / MSEC_HOUR
  let t1 := time - hours * MSEC_HOUR
  let minutes := t1 / MSEC_MINUTE
  let t2 := t1 - minutes * MSEC_MINUTE
  let seconds := t2 / MSEC_SECOND
  let t3 := t2 - seconds * MSEC_SECOND
  if fmt.allow_shorten ∧ hours = 0 then
    if minutes = 0 then
      sign ++ pad_zeroes seconds fmt.seconds ++ '.' :: pad_zeroes t3 fmt.msecs
    else
      sign ++ pad_zeroes minutes fmt.minutes
        ++ ':' :: pad_zeroes seconds fmt.seconds
        ++ '.' :: pad_zeroes t3 fmt.msecs
  else
    sign ++ pad_zeroes hours fmt.hours
      ++ ':' :: pad_zeroes minutes fmt.minutes
      ++ ':' :: pad_zeroes seconds fmt.seconds
      ++ '.' :: pad_zeroes t3 fmt.msecs

/-! ## Time-string parsing (`src/wl_split_timer.rs`) -/

/-- `WlSplitTimer::parse_time_string`: split on `':'` into
`hours : minutes : rest`, split `rest` on `'.'` into
`seconds . msecs`, parse each block as `u128` (taking only the first
three characters of the milliseconds block) and recombine. -/
def parse_time_string (time : List Char) : Option Nat := do
  let sp := splitChar ':' time
  let s0 ← sp.get? 0
  let h ← parseU128 s0
  let s1 ← sp.get? 1
  let m ← parseU128 s1
  let s2 ← sp.get? 2
  let sp2 := splitChar '.' s2
  let t0 ← sp2.get? 0
  let sec ← parseU128 t0
  let t1 ← sp2.get? 1
  let ms ← parseU128 (t1.take 3)
  return MSEC_HOUR * h + MSEC_MINUTE * m + MSEC_SECOND * sec + ms

/-! ## Lemmas about decimal strings, padding and splitting -/

theorem digitChar_isDigit : ∀ d, d < 10 → (Nat.digitChar d).isDigit = true := by decide

theorem digitChar_digitVal : ∀ d, d < 10 → digitVal (Nat.digitChar d) = d := by decide

theorem isDigit_ne (c : Char) (h : c.isDigit = true) : c ≠ ':' ∧ c ≠ '.' ∧ c ≠ '+' := by
  refine ⟨?_, ?_, ?_⟩ <;> rintro rfl <;> simp [Char.isDigit] at h

theorem natChars_ne_nil (n : Nat) : natChars n ≠ [] := by
  rw [natChars_eq_digits]
  split
  · simp
  · simp [Nat.digits_ne_nil_iff_ne_zero, *]

theorem mem_natChars_isDigit (n : Nat) (c : Char) (hc : c ∈ natChars n) : c.isDigit = true := by
  rw [natChars_eq_digits] at hc
  split at hc
  · simp at hc; subst hc; decide
  · simp only [List.mem_reverse, List.mem_map] at hc
    obtain ⟨d, hd, rfl⟩ := hc
    exact digitChar_isDigit d (Nat.digits_lt_base (by norm_num) hd)

theorem natChars_length_le (n k : Nat) (hk : 0 < k) (h : n < 10 ^ k) :
    (natChars n).length ≤ k := by
  rw [natChars_eq_digits]
  split
  · simpa using hk
  · rw [List.length_reverse, List.length_map,
      Nat.digits_len 10 n (by norm_num) (by assumption)]
    have := Nat.log_lt_of_lt_pow (by assumption) h
    omega

/-- Folding the decimal-digit accumulator over the digit characters of `n`
starting from `a` yields `a * 10 ^ (number of rendered digits) + n`. -/
theorem foldl_natChars (n a : Nat) :
    (natChars n).foldl (fun x c => x * 10 + digitVal c) a
      = a * 10 ^ (natChars n).length + n := by
  have key : ∀ (L : List Nat), (∀ d ∈ L, d < 10) → ∀ a : Nat,
      ((L.map Nat.digitChar).reverse).foldl (fun x c => x * 10 + digitVal c) a
        = a * 10 ^ L.length + Nat.ofDigits 10 L := by
    intro L
    induction L with
    | nil => intro _ a; simp [Nat.ofDigits]
    | cons d L ih =>
      intro hL a
      simp only [List.map_cons, List.reverse_cons, List.foldl_append, List.foldl_cons,
        List.foldl_nil]
      rw [ih (fun x hx => hL x (List.mem_cons_of_mem _ hx)) a,
        digitChar_digitVal d (hL d (List.mem_cons_self d L)), Nat.ofDigits_cons]
      simp only [List.length_cons, pow_succ]
      ring
  rw [natChars_eq_digits]
  split
  · rename_i h
    subst h
    have h0 : digitVal '0' = 0 := rfl
    simp [h0]
  · rw [key (Nat.digits 10 n) (fun d hd => Nat.digits_lt_base (by norm_num) hd) a,
      Nat.ofDigits_digits]
    simp

theorem pad_zeroes_eq (t len : Nat) :
    pad_zeroes t len = List.replicate (len - (natChars t).length) '0' ++ natChars t := by
  rw [pad_zeroes]
  split
  · have h : len - (natChars t).length = 0 := by omega
    rw [h]; simp
  · rfl

theorem mem_pad_zeroes_isDigit (t len : Nat) (c : Char) (hc : c ∈ pad_zeroes t len) :
    c.isDigit = true := by
  rw [pad_zeroes_eq] at hc
  rcases List.mem_append.mp hc with h | h
  · rw [List.eq_of_mem_replicate h]; decide
  · exact mem_natChars_isDigit t c h

theorem pad_zeroes_ne_nil (t len : Nat) : pad_zeroes t len ≠ [] := by
  rw [pad_zeroes_eq]
  intro h
  exact natChars_ne_nil t (List.append_eq_nil.mp h).2

theorem pad_zeroes_length (t len : Nat) (h : (natChars t).length ≤ len) :
    (pad_zeroes t len).length = len := by
  rw [pad_zeroes_eq, List.length_append, List.length_replicate]
  omega

/-- Folding the accumulator over a zero-padded decimal rendering of `t`
from `0` recovers `t`. -/
theorem foldl_pad_zeroes (t len : Nat) :
    (pad_zeroes t len).foldl (fun x c => x * 10 + digitVal c) 0 = t := by
  rw [pad_zeroes_eq, List.foldl_append]
  have hz : ∀ (k : Nat), (List.replicate k '0').foldl (fun x c => x * 10 + digitVal c) 0 = 0 := by
    intro k
    induction k with
    | zero => rfl
    | succ k ih => rw [List.replicate_succ, List.foldl_cons]; simpa [digitVal] using ih
  rw [hz, foldl_natChars]
  simp

theorem stripSign_of_head_ne (c : Char) (t : List Char) (h : c ≠ '+') :
    stripSign (c :: t) = c :: t := by
  rw [stripSign, if_neg h]

theorem parseU128_of_digits (s : List Char) (hne : s ≠ [])
    (hdig : ∀ c ∈ s, c.isDigit = true)
    (hval : s.foldl (fun a c => a * 10 + digitVal c) 0 < 2 ^ 128) :
    parseU128 s = some (s.foldl (fun a c => a * 10 + digitVal c) 0) := by
  match s, hne with
  | c :: t, _ =>
    have hc : c ≠ '+' := (isDigit_ne c (hdig c (List.mem_cons_self c t))).2.2
    rw [parseU128]
    simp only [stripSign_of_head_ne c t hc]
    rw [if_neg (List.cons_ne_nil c t),
      if_pos (List.all_eq_true.mpr (fun x hx => hdig x hx)),
      if_pos hval]

theorem parseU128_pad_zeroes (t len : Nat) (h : t < 2 ^ 128) :
    parseU128 (pad_zeroes t len) = some t := by
  rw [parseU128_of_digits _ (pad_zeroes_ne_nil t len) (mem_pad_zeroes_isDigit t len)
      (by rw [foldl_pad_zeroes]; exact h), foldl_pad_zeroes]

theorem splitChar_ne_nil (sep : Char) (l : List Char) : splitChar sep l ≠ [] := by
  cases l with
  | nil => simp [splitChar]
  | cons c rest =>
    rw [splitChar]
    split <;> simp

theorem splitChar_of_not_mem (sep : Char) (l : List Char) (h : sep ∉ l) :
    splitChar sep l = [l] := by
  induction l with
  | nil => rfl
  | cons c rest ih =>
    rw [splitChar]
    simp only [ih (fun hmem => h (List.mem_cons_of_mem c hmem))]
    rw [if_neg (show ¬c = sep from fun hc => h (by rw [← hc]; exact List.mem_cons_self c rest))]
    simp

theorem splitChar_append (sep : Char) (a b : List Char) (h : sep ∉ a) :
    splitChar sep (a ++ sep :: b) = a :: splitChar sep b := by
  induction a with
  | nil =>
    simp only [List.nil_append]
    rw [splitChar]
    simp
  | cons c rest ih =>
    simp only [List.cons_append]
    rw [splitChar]
    simp only [ih (fun hmem => h (List.mem_cons_of_mem c hmem))]
    rw [if_neg (show ¬c = sep from fun hc => h (by rw [← hc]; exact List.mem_cons_self c rest))]
    cases hs : splitChar sep b with
    | nil => exact absurd hs (splitChar_ne_nil sep b)
    | cons hd tl => simp

theorem colon_not_mem_pad_zeroes (t len : Nat) : ':' ∉ pad_zeroes t len := fun hm =>
  absurd (mem_pad_zeroes_isDigit t len ':' hm) (by decide)

theorem dot_not_mem_pad_zeroes (t len : Nat) : '.' ∉ pad_zeroes t len := fun hm =>
  absurd (mem_pad_zeroes_isDigit t len '.' hm) (by decide)

/-- The non-shortened formatter produces the four zero-padded blocks in
`HH:MM:SS.mmm` shape, with the remainders of the source's
subtract-and-carry decomposition rewritten as mod chains. -/
theorem format_time_for_file_eq (m : Nat) :
    TimeFormat.for_file.format_time m false
      = pad_zeroes (m / 3600000) 2
        ++ ':' :: (pad_zeroes (m % 3600000 / 60000) 2
        ++ ':' :: (pad_zeroes (m % 60000 / 1000) 2
        ++ '.' :: pad_zeroes (m % 1000) 3)) := by
  simp only [TimeFormat.format_time, TimeFormat.for_file, TimeFormat.dflt,
    MSEC_HOUR, MSEC_MINUTE, MSEC_SECOND]
  have e1 : m - m / 3600000 * 3600000 = m % 3600000 := by omega
  have e2 : m % 3600000 - m % 3600000 / 60000 * 60000 = m % 60000 := by omega
  have e3 : m % 60000 - m % 60000 / 1000 * 1000 = m % 1000 := by omega
  rw [e1, e2, e3]
  simp

/-- Parsing the output of the file (non-shortened) formatter recovers the
formatted value (shared round-trip engine for the formatting claims). -/
theorem parse_format_for_file (m : Nat) (h : m < 2 ^ 128) :
    parse_time_string (TimeFormat.for_file.format_time m false) = some m := by
  rw [format_time_for_file_eq, parse_time_string]
  have cmsS : ':' ∉ pad_zeroes (m % 60000 / 1000) 2 ++ '.' :: pad_zeroes (m % 1000) 3 := by
    intro hm
    rcases List.mem_append.mp hm with hm | hm
    · exact colon_not_mem_pad_zeroes _ _ hm
    · rcases List.mem_cons.mp hm with hm | hm
      · exact absurd hm (by decide)
      · exact colon_not_mem_pad_zeroes _ _ hm
  rw [splitChar_append ':' _ _ (colon_not_mem_pad_zeroes _ _),
    splitChar_append ':' _ _ (colon_not_mem_pad_zeroes _ _),
    splitChar_of_not_mem ':' _ cmsS]
  have hlen3 : (pad_zeroes (m % 1000) 3).length = 3 :=
    pad_zeroes_length _ _ (natChars_length_le _ 3 (by norm_num) (by omega))
  simp only [List.get?, Option.bind_eq_bind, Option.some_bind,
    splitChar_append '.' _ _ (dot_not_mem_pad_zeroes _ _),
    splitChar_of_not_mem '.' _ (dot_not_mem_pad_zeroes _ _),
    List.take_of_length_le (le_of_eq hlen3),
    parseU128_pad_zeroes (m / 3600000) 2 (by omega),
    parseU128_pad_zeroes (m % 3600000 / 60000) 2 (by omega),
    parseU128_pad_zeroes (m % 60000 / 1000) 2 (by omega),
    parseU128_pad_zeroes (m % 1000) 3 (by omega)]
  simp only [MSEC_HOUR, MSEC_MINUTE, MSEC_SECOND, Option.pure_def, Option.some.injEq]
  omega

/-- Formatting as worded by the specification (§4.1), independent of the
source: decompose `m` with modulo chains (hours, then the remainder
carried down to minutes, seconds, milliseconds), zero-pad each component
to its configured width, render a component exceeding its width at full
width, omit the leading hours block (and the minutes block when minutes
is also zero) only when shortening is allowed, and put `-` before
negative values, `+` before non-negative ones when a sign is forced, and
nothing otherwise. -/
def format_time_spec (fmt : TimeFormat) (m : Nat) (negative : Bool) : List Char :=
  let sign : List Char :=
    if negative then ['-'] else if fmt.always_sign then ['+'] else []
  let hours := m / 3600000
  let minutes := m % 3600000 / 60000
  let seconds := m % 60000 / 1000
  let msecs := m % 1000
  let pad := fun (v w : Nat) => List.replicate (w - (natChars v).length) '0' ++ natChars v
  if fmt.allow_shorten ∧ hours = 0 ∧ minutes = 0 then
    sign ++ pad seconds fmt.seconds ++ '.' :: pad msecs fmt.msecs
  else if fmt.allow_shorten ∧ hours = 0 then
    sign ++ pad minutes fmt.minutes
      ++ ':' :: pad seconds fmt.seconds
      ++ '.' :: pad msecs fmt.msecs
  else
    sign ++ pad hours fmt.hours
      ++ ':' :: pad minutes fmt.minutes
      ++ ':' :: pad seconds fmt.seconds
      ++ '.' :: pad msecs fmt.msecs

/-- The source formatter refines the specification's wording, for every
width configuration, every value and every sign. -/
theorem format_time_eq_spec (fmt : TimeFormat) (m : Nat) (neg : Bool) :
    fmt.format_time m neg = format_time_spec fmt m neg := by
  simp only [TimeFormat.format_time, format_time_spec,
    MSEC_HOUR, MSEC_MINUTE, MSEC_SECOND]
  have e1 : m - m / 3600000 * 3600000 = m % 3600000 := by omega
  have e2 : m % 3600000 - m % 3600000 / 60000 * 60000 = m % 60000 := by omega
  have e3 : m % 60000 - m % 60000 / 1000 * 1000 = m % 1000 := by omega
  rw [e1, e2, e3]
  simp only [← pad_zeroes_eq]
  split_ifs <;> first | rfl | tauto

/-! ## Run domain model and derived timer queries (`src/wl_split_timer.rs`)

A livesplit segment is modelled by the fields the program reads: all
times are real-time millisecond values (`Option Nat`, `none` = no time);
`segment_history` maps attempt ids to optional times.  `TimerView` is the
read-only snapshot the queries and the renderer take of the shared timer:
the segment list, `current_split_index` and `current_time` (the value of
`timer.time()`). -/

structure Segment where
  name : List Char
  personal_best_split_time : Option Nat
  best_segment_time : Option Nat
  split_time : Option Nat
  segment_history : List (Int × Option Nat)
deriving Repr, DecidableEq

instance : Inhabited Segment := ⟨⟨[], none, none, none, []⟩⟩

structure TimerView where
  segments : List Segment
  current_split_index : Option Nat
  current_time : Option Nat
  attempt_count : Nat
deriving Repr, DecidableEq

/-- `WlSplitTimer::sum_of_best_segments`: running sum of the golds that
are present. -/
def sum_of_best_segments (segs : List Segment) : Nat :=
  segs.foldl
    (fun sum segment =>
      match segment.best_segment_time with
      | some time => sum + time
      | none => sum)
    0

/-- `WlSplitTimer::best_possible_time`.  The source indexes
`segment(index - 1)` directly (panicking out of range); the embedding
reads it with `getD` and the theorems restrict to in-range states. -/
def best_possible_time (tv : TimerView) : Nat :=
  let index := tv.current_split_index.getD 0
  if index = 0 then sum_of_best_segments tv.segments
  else
    let time := ((tv.segments.getD (index - 1) default).split_time).getD 0
    (tv.segments.drop index).foldl
      (fun time segment => time + segment.best_segment_time.getD 0) time

/-- `WlSplitTimer::get_segment_time`: marginal time of segment `index`,
cumulative split at `index` minus cumulative split at `index - 1`.  The
source subtracts two `i64` millisecond counts and casts the result
`as usize`; the cast's wrap-around is the explicit `% 2 ^ 64`. -/
def get_segment_time (tv : TimerView) (index : Nat) : Option Nat :=
  let current_time := (tv.segments.get? index).bind (fun s => s.split_time)
  if index = 0 then current_time
  else
    let time := (tv.segments.get? (index - 1)).bind (fun s => s.split_time)
    match current_time, time with
    | some c, some p => some ((((c : Int) - (p : Int)) % (2 ^ 64 : Int)).toNat)
    | _, _ => none

theorem foldl_best_eq_sum (segs : List Segment) (a : Nat) :
    segs.foldl (fun t s => t + s.best_segment_time.getD 0) a
      = a + (segs.map (fun s => s.best_segment_time.getD 0)).sum := by
  induction segs generalizing a with
  | nil => simp
  | cons s rest ih =>
    simp only [List.foldl_cons, List.map_cons, List.sum_cons, ih]
    omega

theorem sum_of_best_eq_sum (segs : List Segment) :
    sum_of_best_segments segs = (segs.map (fun s => s.best_segment_time.getD 0)).sum := by
  have key : ∀ (l : List Segment) (a : Nat),
      l.foldl (fun sum segment =>
        match segment.best_segment_time with
        | some time => sum + time
        | none => sum) a
      = a + (l.map (fun s => s.best_segment_time.getD 0)).sum := by
    intro l
    induction l with
    | nil => simp
    | cons s rest ih =>
      intro a
      simp only [List.foldl_cons, List.map_cons, List.sum_cons, ih]
      rcases s.best_segment_time with _ | t
      · simp
      · simp
        omega
  simpa using key segs 0

example :
    best_possible_time
      { segments :=
          [{ name := "a".toList, personal_best_split_time := none,
             best_segment_time := some 1000, split_time := some 1200, segment_history := [] },
           { name := "b".toList, personal_best_split_time := none,
             best_segment_time := some 1500, split_time := none, segment_history := [] },
           { name := "c".toList, personal_best_split_time := none,
             best_segment_time := some 2000, split_time := none, segment_history := [] }],
        current_split_index := some 1, current_time := some 1300,
        attempt_count := 0 } = 4700 := by decide

/-! ## Damage-tracked renderer (`src/display/smithay/smithay.rs`)

The renderer is embedded as the pure computation of the texts, colors and
damage rectangles of one `Surface::draw` call.  Pixel compositing and the
Wayland surface calls are effects on the environment; the rasterizer's
advance-width measurement (`Text::get_width`) is a capability and enters
as the oracle `tw : List Char → Nat`.  The frame-skip path on buffer
acquisition failure is not modelled; the embedding is the successful
path. -/

inductive SplitColor
  | Gain
  | Loss
  | Gold
deriving Repr, DecidableEq

structure RenderProperties where
  text_height : Nat
  padding_h : Nat
  padding_v : Nat
deriving Repr, DecidableEq

structure Damage where
  x : Nat
  y : Nat
  w : Nat
  h : Nat
deriving Repr, DecidableEq

/-- `diff_time` from `src/display/smithay/smithay.rs`: signed difference
of two optional millisecond times, formatted with a forced sign, `Gain`
when the candidate beat the reference; empty text and `Loss` when either
time is absent. -/
def diff_time (time best : Option Nat) : List Char × SplitColor :=
  match time, best with
  | some time, some best =>
    let negative : Bool := decide (best > time)
    let diff := if negative then best - time else time - best
    (TimeFormat.for_diff.format_time diff negative,
      if negative then SplitColor.Gain else SplitColor.Loss)
  | _, _ => ([], SplitColor.Loss)

/-- `diff_time` from `src/display/terminal/terminal.rs`: same split on
presence, but pushes only a formatted string (an empty one when either
time is absent).  The formatter it calls (`WlSplitTimer::format_time`) is
not part of `src`, so it is passed as a capability `fmt`. -/
def terminal_diff_time (fmt : Nat → Bool → List Char) (time best : Option Nat) : List Char :=
  match time, best with
  | some time, some best =>
    if best > time then fmt (best - time) true else fmt (time - best) false
  | _, _ => []

/-- The new-gold test of `Surface::draw_segment_time` (lines 620–627):
both the just-computed marginal segment time and the stored golden split
must be present, and the former must be strictly smaller. -/
def gold_split (tv : TimerView) (index : Nat) : Bool :=
  match get_segment_time tv index, (tv.segments.getD index default).best_segment_time with
  | some split, some pb => decide (split < pb)
  | _, _ => false

/-- The render artifacts of one `Surface::draw_segment_time` call: the
selected timestamp, the two drawn texts, the drawn delta color and the
returned damage rectangle. -/
structure SegmentTimeRender where
  timestamp : Option Nat
  time_text : List Char
  diff_text : List Char
  diff_color : SplitColor
  damage : Damage
deriving Repr, DecidableEq

/-- `Surface::draw_segment_time`.  The timestamp selection, the delta
against the segment's personal best (live time for the current row,
recorded split otherwise), the gold override for non-current rows, and
the damage rectangle (measured against the placeholder delta text, as in
the source) follow lines 572–694.  The source indexes
`timer.segments()[index]` (panicking out of range); the embedding reads
it with `getD`. -/
def draw_segment_time (index : Nat) (segment : Segment) (current : Bool)
    (width : Nat) (tv : TimerView) (rp : RenderProperties) (scale : Nat)
    (tw : List Char → Nat) : SegmentTimeRender :=
  let timestamp : Option Nat :=
    match segment.personal_best_split_time with
    | some time => some time
    | none =>
      if segment.segment_history.length = 0 then segment.split_time else none
  let time_text : List Char :=
    match timestamp with
    | none => "/".toList
    | some time => TimeFormat.dflt.format_time time false
  let time_width := tw time_text
  let diff0 := diff_time
    (if current then tv.current_time else segment.split_time)
    (tv.segments.getD index default).personal_best_split_time
  let diff1 :=
    if !current && gold_split tv index then (diff0.1, SplitColor.Gold) else diff0
  let ph_width := tw "-:--:--.---".toList
  { timestamp := timestamp
    time_text := time_text
    diff_text := diff1.1
    diff_color := diff1.2
    damage :=
      { x := width - time_width - ph_width - rp.padding_h * 4 * scale
        y := (rp.padding_v + (index + 1) * (rp.text_height + rp.padding_v)
              + rp.text_height / 20) * scale
        w := ph_width + time_width + 6 * rp.padding_h * scale
        h := (rp.text_height + rp.padding_v) * scale } }

/-- Damage rectangle of `Surface::draw_segment_title` (measured before
the `"> "` marker is stripped for non-current rows, as in the source). -/
def draw_segment_title_damage (index : Nat) (segment : Segment)
    (rp : RenderProperties) (scale : Nat) (tw : List Char → Nat) : Damage :=
  let name := "> ".toList ++ segment.name
  { x := rp.padding_h * scale
    y := (rp.padding_v + (index + 1) * (rp.text_height + rp.padding_v)) * scale
    w := (tw name + rp.padding_h) * scale
    h := (rp.text_height + rp.padding_v) * scale }

/-- Damage rectangle of `Surface::draw_attempts_counter` (its width and
height components are not scale-multiplied in the source). -/
def draw_attempts_counter_damage (attempt_count width : Nat)
    (rp : RenderProperties) (scale : Nat) (tw : List Char → Nat) : Damage :=
  let text := natChars attempt_count
  { x := (width - tw text - rp.padding_h) * scale
    y := rp.padding_v * scale
    w := tw text + rp.padding_h
    h := rp.text_height + rp.padding_v }

/-- Damage rectangle of `Surface::draw_additional_info` (full surface
width at the row of the given offset). -/
def draw_additional_info_damage (offset width : Nat)
    (rp : RenderProperties) (scale : Nat) : Damage :=
  { x := rp.padding_h * scale
    y := (2 * rp.padding_v + offset * (rp.text_height + rp.padding_v)) * scale
    w := width
    h := (rp.text_height + rp.padding_v) * scale }

/-- Modelled from the spec: `WlSplitTimer::get_personal_best_segment_time`
is called by the renderer (`smithay.rs` line 357) but absent from
`src/wl_split_timer.rs`.  Per §4.4 step 3 the previous-segment panel
compares the just-finished segment's marginal time against "its personal
best": the personal-best split at `index` minus the one at `index - 1`
(the split itself at index 0), absent when either cumulative value is
missing. -/
def get_personal_best_segment_time (tv : TimerView) (index : Nat) : Option Nat :=
  let cur := (tv.segments.get? index).bind (fun s => s.personal_best_split_time)
  if index = 0 then cur
  else
    match cur, (tv.segments.get? (index - 1)).bind (fun s => s.personal_best_split_time) with
    | some c, some p => some (c - p)
    | _, _ => none

/-- Damage rectangle of the live-clock block at the bottom of
`Surface::draw` (lines 461–499). -/
def clock_damage (tv : TimerView) (width : Nat)
    (rp : RenderProperties) (scale : Nat) (tw : List Char → Nat) : Damage :=
  let text : List Char :=
    match tv.current_time with
    | none => "/".toList
    | some time => TimeFormat.dflt.format_time time false
  let cw := tw text
  { x := width - cw - rp.padding_h * scale
    y := (2 * rp.padding_v + (tv.segments.length + 1) * (rp.text_height + rp.padding_v)) * scale
    w := cw + rp.padding_h
    h := (rp.text_height + rp.padding_v) * scale }

/-- The renderer state retained between `Surface::draw` calls that the
damage computation reads. -/
structure SurfaceState where
  dimensions : Nat × Nat
  current_scale : Nat
  current_split : Option Nat
  render_properties : RenderProperties
deriving Repr, DecidableEq

/-- One `Surface::draw` call, as the ordered list of damage rectangles it
submits together with the updated `current_split` cursor; `none` is the
early return (no commit) when the timer has no current segment while a
cursor exists.  A scale change from the compositor callback
(`scale_handle ≠ current_scale`) discards the cursor and forces the
full-repaint branch, exactly as in lines 280–287. -/
def Surface.draw (st : SurfaceState) (scale_handle : Nat) (tv : TimerView)
    (tw : List Char → Nat) : Option (List Damage × Option Nat) :=
  let cursor := if scale_handle ≠ st.current_scale then none else st.current_split
  let scale := scale_handle
  let width := st.dimensions.1 * scale
  let height := st.dimensions.2 * scale
  let rp := st.render_properties
  match cursor with
  | some previous_split =>
    match tv.current_split_index with
    | none => none
    | some current_split =>
      let changed : List Damage :=
        if previous_split ≠ current_split then
          [draw_segment_title_damage previous_split
              (tv.segments.getD previous_split default) rp scale tw,
           draw_segment_title_damage current_split
              (tv.segments.getD current_split default) rp scale tw,
           (draw_segment_time previous_split (tv.segments.getD previous_split default)
              false width tv rp scale tw).damage,
           draw_attempts_counter_damage tv.attempt_count width rp scale tw,
           draw_additional_info_damage (tv.segments.length + 3) width rp scale]
        else []
      some (changed ++
        [(draw_segment_time current_split (tv.segments.getD current_split default)
            true width tv rp scale tw).damage,
         clock_damage tv width rp scale tw],
        some current_split)
  | none =>
    some ([{ x := 0, y := 0, w := width, h := height },
           clock_damage tv width rp scale tw],
      tv.current_split_index)

/-! ## Timer state machine

`WlSplitTimer`'s command methods (`src/wl_split_timer.rs` lines 75–106)
wrap a `livesplit_core::Timer`, which is an external dependency; its
transition behavior is therefore modelled from the specification (§4.3).
Persistence (`write_file`) is observed as a write counter on the wrapper
state. -/

inductive TimerPhase
  | NotRunning
  | Running
  | Paused
  | Ended
deriving Repr, DecidableEq

structure LSAttempt where
  id : Nat
  time : Option Nat
deriving Repr, DecidableEq

/-- Modelled from the spec: the `livesplit_core::Timer` state observed by
the program — the run data (attempt count, attempt history, segments),
the phase, the current segment index and the elapsed time of the
in-progress attempt (§3 TimerState, §4.3). -/
structure LSTimer where
  attempt_count : Nat
  attempt_history : List LSAttempt
  segments : List Segment
  phase : TimerPhase
  current_split_index : Option Nat
  elapsed : Nat
deriving Repr, DecidableEq

/-- Modelled from the spec: `NotRunning → Running` on start, elapsed
accumulator reset, `current_segment_index = 0` (§4.3); no transition from
the other phases. -/
def LSTimer.start (t : LSTimer) : LSTimer :=
  if t.phase = TimerPhase.NotRunning then
    { t with phase := TimerPhase.Running, current_split_index := some 0, elapsed := 0 }
  else t

/-- Modelled from the spec: `Running → Running` on split — record the
current elapsed time as the current segment's split time and advance the
index; past the last segment, transition to `Ended` (§4.3). -/
def LSTimer.split (t : LSTimer) : LSTimer :=
  if t.phase = TimerPhase.Running then
    match t.current_split_index with
    | some i =>
      let segs :=
        match t.segments.get? i with
        | some s => t.segments.set i { s with split_time := some t.elapsed }
        | none => t.segments
      if i + 1 < t.segments.length then
        { t with segments := segs, current_split_index := some (i + 1) }
      else
        { t with segments := segs, current_split_index := none,
                 phase := TimerPhase.Ended }
    | none => t
  else t

/-- Modelled from the spec: skip advances the index without recording a
split time, valid only while `Running` (§4.3); the last segment cannot be
skipped past (ending a run is split's transition). -/
def LSTimer.skip_split (t : LSTimer) : LSTimer :=
  if t.phase = TimerPhase.Running then
    match t.current_split_index with
    | some i =>
      if i + 1 < t.segments.length then { t with current_split_index := some (i + 1) }
      else t
    | none => t
  else t

/-- Modelled from the spec: pause toggles `Running ↔ Paused` (§4.3). -/
def LSTimer.toggle_pause (t : LSTimer) : LSTimer :=
  if t.phase = TimerPhase.Running then { t with phase := TimerPhase.Paused }
  else if t.phase = TimerPhase.Paused then { t with phase := TimerPhase.Running }
  else t

/-- Modelled from the spec: the per-segment fold applied when an attempt
is recorded (§4.3 `Ended → NotRunning` and reset-with-update): each
segment holding a split time gets a history entry under the new attempt
id, its golden split becomes the minimum of the old gold and the new
marginal time, its personal best the minimum of old and new split; every
segment's in-progress split time is cleared.  `prev` threads the previous
segment's cumulative split for the marginal computation. -/
def updateSegments (attemptId : Int) : Option Nat → List Segment → List Segment
  | _, [] => []
  | prev, s :: rest =>
    match s.split_time with
    | some time =>
      { s with
        segment_history := s.segment_history ++ [(attemptId, some time)],
        best_segment_time :=
          some (match s.best_segment_time with
            | some g => min g (time - prev.getD 0)
            | none => time - prev.getD 0),
        personal_best_split_time :=
          some (match s.personal_best_split_time with
            | some p => min p time
            | none => time),
        split_time := none } :: updateSegments attemptId (some time) rest
    | none => { s with split_time := none } :: updateSegments attemptId prev rest

/-- Modelled from the spec: any phase `→ NotRunning` on reset; with
`update_splits = true` the attempt is counted, appended to history and
the partial run's segment times are folded into history/personal-best
bookkeeping; with `false` the attempt is discarded without recording
(§4.3). -/
def LSTimer.reset (t : LSTimer) (update_splits : Bool) : LSTimer :=
  if update_splits then
    { t with
      attempt_count := t.attempt_count + 1,
      attempt_history := t.attempt_history
        ++ [{ id := t.attempt_count + 1, time := some t.elapsed }],
      segments := updateSegments ((t.attempt_count + 1 : Nat) : Int) none t.segments,
      phase := TimerPhase.NotRunning, current_split_index := none, elapsed := 0 }
  else
    { t with
      segments := t.segments.map (fun s => { s with split_time := none }),
      phase := TimerPhase.NotRunning, current_split_index := none, elapsed := 0 }

/-- The `WlSplitTimer` wrapper state (`src/wl_split_timer.rs`): the inner
timer, the exit flag, and the number of `write_file` persistence calls
(the run-file path itself is environment). -/
structure WlSplit where
  timer : LSTimer
  exit : Bool
  write_count : Nat
deriving Repr, DecidableEq

/-- `WlSplitTimer::write_file` observed as a persistence event. -/
def WlSplit.write_file (w : WlSplit) : WlSplit :=
  { w with write_count := w.write_count + 1 }

/-- `WlSplitTimer::start`. -/
def WlSplit.start (w : WlSplit) : WlSplit :=
  { w with timer := w.timer.start }

/-- `WlSplitTimer::pause` (delegates to the pause toggle). -/
def WlSplit.pause (w : WlSplit) : WlSplit :=
  { w with timer := w.timer.toggle_pause }

/-- `WlSplitTimer::skip`. -/
def WlSplit.skip (w : WlSplit) : WlSplit :=
  { w with timer := w.timer.skip_split }

/-- `WlSplitTimer::reset` (lines 97–102): inner reset, then persist when
`update_splits` is set. -/
def WlSplit.reset (w : WlSplit) (update_splits : Bool) : WlSplit :=
  let w' := { w with timer := w.timer.reset update_splits }
  if update_splits then w'.write_file else w'

/-- `WlSplitTimer::split` (lines 83–91): inner split; when that ended the
run, `reset(true)` (which persists) followed by another persist. -/
def WlSplit.split (w : WlSplit) : WlSplit :=
  let w' := { w with timer := w.timer.split }
  if w'.timer.phase = TimerPhase.Ended then (w'.reset true).write_file else w'

/-- `WlSplitTimer::quit`. -/
def WlSplit.quit (w : WlSplit) : WlSplit :=
  { w with exit := true }

/-- The socket commands of `main.rs::handle_stream_response` ("reset"
maps to `reset(true)`). -/
inductive Command
  | start
  | split
  | skip
  | pause
  | reset
  | quit
deriving Repr, DecidableEq

def WlSplit.apply (w : WlSplit) : Command → WlSplit
  | Command.start => w.start
  | Command.split => w.split
  | Command.skip => w.skip
  | Command.pause => w.pause
  | Command.reset => w.reset true
  | Command.quit => w.quit

/-! ## Run-file persistence

Loading is `file_to_run` (`src/wl_split_timer.rs` lines 228–280), reading
the JSON schema of §6; saving is `Run::new` (`src/file.rs` lines 38–117),
writing that file's schema.  Time strings are parsed with
`parse_time_string`; RFC 3339 timestamp parsing (`chrono`) is external
and enters as the oracle `parseDate` (a parsed timestamp is represented
by its text). -/

/-- An in-memory livesplit `Run` attempt as the persistence code reads
and writes it. -/
structure RunAttempt where
  id : Int
  time : Option Nat
  started : Option (List Char)
  ended : Option (List Char)
  pause_time : Option Nat
deriving Repr, DecidableEq

/-- The in-memory livesplit `Run` fields touched by `file_to_run` and
`Run::new`. -/
structure LSRun where
  game_name : List Char
  category_name : List Char
  attempt_count : Nat
  attempt_history : List RunAttempt
  segments : List Segment
deriving Repr, DecidableEq

/-- `{id, started?, ended?, time?, pause_time?}` of the persisted
attempt-history schema (§6), as read by `file_to_run`. -/
structure FileAttempt where
  id : Nat
  started : Option (List Char)
  ended : Option (List Char)
  time : Option (List Char)
  pause_time : Option (List Char)
deriving Repr, DecidableEq

/-- `SplitTime` from `src/file.rs`. -/
structure FileSplitTime where
  name : Option (List Char)
  time : Option (List Char)
  id : Option Nat
deriving Repr, DecidableEq

/-- `{name, personal_best_split_time?, best_segment_time?,
segment_history}` of the persisted segment schema (§6), as read by
`file_to_run`. -/
structure FileSegmentIn where
  name : List Char
  best_segment_time : Option (List Char)
  personal_best_split_time : Option (List Char)
  segment_history : List FileSplitTime
deriving Repr, DecidableEq

/-- The persisted run document as read by `file_to_run`. -/
structure RunFileIn where
  game_name : List Char
  category_name : List Char
  attempt_count : Nat
  attempt_history : List FileAttempt
  segments : List FileSegmentIn
deriving Repr, DecidableEq

/-- `Segment` from `src/file.rs` — the shape `Run::new` writes. -/
structure FileSegmentOut where
  name : List Char
  icon : Option (List Char)
  split_times : List FileSplitTime
  best_segment_time : Option FileSplitTime
  segment_history : List FileSplitTime
deriving Repr, DecidableEq

/-- `Attempt` from `src/file.rs` — the shape `Run::new` writes. -/
structure FileAttemptOut where
  id : Nat
  started : Option (List Char)
  ended : Option (List Char)
  time : Option (List Char)
deriving Repr, DecidableEq

/-- The persisted run document as written by `Run::new`
(`src/file.rs`). -/
structure RunFileOut where
  game_name : List Char
  category_name : List Char
  attempt_count : Nat
  attempt_history : List FileAttemptOut
  segments : List FileSegmentOut
deriving Repr, DecidableEq

/-- `WlSplitTimer::string_to_time` parses with `parse_time_string` and
panics (`expect`) on failure; the panic is the `none` of the containing
load. -/
def string_to_time (s : List Char) : Option Nat :=
  parse_time_string s

/-- One iteration of `file_to_run`'s attempt loop: an attempt without a
time string is skipped (`continue`, the outer `some none`); a time string
that does not parse panics (the outer `none`); otherwise the timestamps
are parsed fallibly (`.ok()`) and the pause time likewise. -/
def load_attempt (parseDate : List Char → Option (List Char)) (a : FileAttempt) :
    Option (Option RunAttempt) :=
  match a.time with
  | none => some none
  | some tstr =>
    match string_to_time tstr with
    | none => none
    | some t =>
      some (some
        { id := (a.id : Int), time := some t
          started := a.started.bind parseDate
          ended := a.ended.bind parseDate
          pause_time := a.pause_time.bind parse_time_string })

/-- One iteration of `file_to_run`'s segment loop.  A missing
best/personal-best string yields an empty time (`Time::new()`, i.e.
`none`); a present one is parsed by `string_to_time` (panic = `none`).
History entries without an id are dropped; entry times follow the same
missing/present rule. -/
def load_segment (seg : FileSegmentIn) : Option Segment := do
  let best ←
    match seg.best_segment_time with
    | none => some none
    | some s => (string_to_time s).map some
  let pbst ←
    match seg.personal_best_split_time with
    | none => some none
    | some s => (string_to_time s).map some
  let hist ← seg.segment_history.foldlM
    (fun acc (split : FileSplitTime) =>
      match split.id with
      | none => some acc
      | some id =>
        match split.time with
        | none => some (acc ++ [((id : Int), (none : Option Nat))])
        | some s => (string_to_time s).map (fun t => acc ++ [((id : Int), some t)]))
    ([] : List (Int × Option Nat))
  some
    { name := seg.name, personal_best_split_time := pbst, best_segment_time := best
      split_time := none, segment_history := hist }

/-- `file_to_run` (`src/wl_split_timer.rs` lines 228–280). -/
def file_to_run (parseDate : List Char → Option (List Char)) (file : RunFileIn) :
    Option LSRun := do
  let attempts ← file.attempt_history.foldlM
    (fun acc a =>
      (load_attempt parseDate a).map (fun r =>
        match r with
        | none => acc
        | some x => acc ++ [x]))
    ([] : List RunAttempt)
  let segs ← file.segments.foldlM
    (fun acc s => (load_segment s).map (fun x => acc ++ [x]))
    ([] : List Segment)
  some
    { game_name := file.game_name, category_name := file.category_name
      attempt_count := file.attempt_count, attempt_history := attempts
      segments := segs }

/-- Modelled from the spec: the four-field `WlSplitTimer::format_time`
called by `src/file.rs` is not part of `src` (the file carries the
`src/time_format.rs` formatter instead); per §6 the persisted time
strings are in the full `H:MM:SS.mmm` family produced and parsed by the
Time Formatting contract, i.e. the non-shortened form. -/
def legacy_format_time (msecs : Nat) (negative : Bool) : List Char :=
  TimeFormat.for_file.format_time msecs negative

/-- `Run::new` (`src/file.rs` lines 38–117): the saved document.  An
absent attempt or history time is written as the formatted zero;
`started`/`ended` are written as `None`; the "Personal Best" split-time
entry and the best-segment entry are both formatted from the segment's
`best_segment_time` milliseconds (the `msecs` binding of lines 61–88). -/
def RunFile.new (run : LSRun) : RunFileOut :=
  { game_name := run.game_name
    category_name := run.category_name
    attempt_count := run.attempt_count
    attempt_history := run.attempt_history.map (fun a =>
      { id := a.id.toNat
        started := none
        ended := none
        time := some (legacy_format_time (a.time.getD 0) false) })
    segments := run.segments.map (fun seg =>
      let msecs := seg.best_segment_time.getD 0
      { name := seg.name
        icon := none
        split_times :=
          [{ id := none, name := some "Personal Best".toList
             time := some (legacy_format_time msecs false) }]
        best_segment_time :=
          some { id := none, name := none
                 time := some (legacy_format_time msecs false) }
        segment_history := seg.segment_history.map (fun h =>
          { id := some h.1.toNat, name := none
            time := some (legacy_format_time (h.2.getD 0) false) }) }) }

example : TimeFormat.for_file.format_time 3661001 false = "01:01:01.001".toList := by decide

/-! ## Concrete fixtures used by witnesses and counterexamples -/

def rpFix : RenderProperties :=
  { text_height := 20, padding_h := 5, padding_v := 5 }

/-- A segment with a personal best, a gold and one history entry. -/
def segFixA : Segment :=
  { name := "A".toList, personal_best_split_time := some 2000
    best_segment_time := some 1000, split_time := none
    segment_history := [(1, some 2000)] }

/-- The spec's gold scenario: a split recorded at 900 ms against a stored
gold of 1000 ms; no personal best. -/
def segFixGold : Segment :=
  { name := "G".toList, personal_best_split_time := none
    best_segment_time := some 1000, split_time := some 900
    segment_history := [(1, some 1000)] }

/-- A never-run segment: provisional split, no history. -/
def segFixFresh : Segment :=
  { name := "F".toList, personal_best_split_time := none
    best_segment_time := none, split_time := some 5
    segment_history := [] }

def tvFix1 : TimerView :=
  { segments := [segFixA], current_split_index := some 0
    current_time := some 1234, attempt_count := 3 }

def tvFixGold : TimerView :=
  { segments := [segFixGold], current_split_index := some 0
    current_time := none, attempt_count := 1 }

def stFix1 : SurfaceState :=
  { dimensions := (400, 300), current_scale := 1, current_split := some 0
    render_properties := rpFix }

/-- The spec's sum-of-best scenario: golds 1000/1500/2000, segment 0
split at 1200 ms, currently on segment 1. -/
def tvFixC5 : TimerView :=
  { segments :=
      [{ name := "a".toList, personal_best_split_time := none
         best_segment_time := some 1000, split_time := some 1200, segment_history := [] },
       { name := "b".toList, personal_best_split_time := none
         best_segment_time := some 1500, split_time := none, segment_history := [] },
       { name := "c".toList, personal_best_split_time := none
         best_segment_time := some 2000, split_time := none, segment_history := [] }]
    current_split_index := some 1, current_time := some 1300, attempt_count := 0 }

/-! ## Claim theorems -/

/-- C1 (counterexample): on a tick with an unchanged current segment
index and no scale event, the draw pass submits two damage rectangles,
not exactly one as claimed — the current row's time/delta cell is pushed
at line 380 and the live-clock cell at line 494. -/
theorem C1_counterexample :
    ((Surface.draw stFix1 1 tvFix1 (fun t => t.length)).map (fun p => p.1.length))
      ≠ some 1 := by decide

/-- C1 (amended): on a render tick where the timer's current segment
index equals the last-drawn cursor and the compositor scale is unchanged,
the draw pass produces exactly two damage rectangles — the current
segment row's time/delta cell and the live-clock cell — and no
full-surface rectangle. -/
theorem C1_unchanged_tick_damage (st : SurfaceState) (tv : TimerView)
    (tw : List Char → Nat) (i : Nat)
    (hprev : st.current_split = some i) (hcur : tv.current_split_index = some i) :
    Surface.draw st st.current_scale tv tw
      = some ([(draw_segment_time i (tv.segments.getD i default) true
                  (st.dimensions.1 * st.current_scale) tv st.render_properties
                  st.current_scale tw).damage,
               clock_damage tv (st.dimensions.1 * st.current_scale)
                  st.render_properties st.current_scale tw],
              some i) := by
  simp [Surface.draw, hprev, hcur]

theorem C1_unchanged_tick_damage_witness :
    stFix1.current_split = some 0 ∧ tvFix1.current_split_index = some 0 ∧
    Surface.draw stFix1 stFix1.current_scale tvFix1 (fun t => t.length)
      = some ([(draw_segment_time 0 (tvFix1.segments.getD 0 default) true
                  (stFix1.dimensions.1 * stFix1.current_scale) tvFix1
                  stFix1.render_properties stFix1.current_scale (fun t => t.length)).damage,
               clock_damage tvFix1 (stFix1.dimensions.1 * stFix1.current_scale)
                  stFix1.render_properties stFix1.current_scale (fun t => t.length)],
              some 0) :=
  ⟨rfl, rfl, C1_unchanged_tick_damage stFix1 tvFix1 (fun t => t.length) 0 rfl rfl⟩

/-- C4 (counterexample): with the default (shortening) format, formatting
0 ms yields `"00.000"`, which `parse_time_string` rejects (no second
`':'`-separated block), so `parse(format(m))` does not return `m` for
every non-negative `m` as claimed. -/
theorem C4_counterexample :
    parse_time_string (TimeFormat.dflt.format_time 0 false) = none := by decide

/-- C4 (amended): for the non-shortening file format
(`TimeFormat::for_file`), parsing the formatted string of any
non-negative millisecond value `m` (as a `u128`, i.e. `m < 2 ^ 128`)
succeeds and returns `m`. -/
theorem C4_roundtrip_file_format (m : Nat) (h : m < 2 ^ 128) :
    parse_time_string (TimeFormat.for_file.format_time m false) = some m :=
  parse_format_for_file m h

theorem C4_roundtrip_file_format_witness :
    3661001 < 2 ^ 128 ∧
    parse_time_string (TimeFormat.for_file.format_time 3661001 false) = some 3661001 :=
  ⟨by norm_num, C4_roundtrip_file_format 3661001 (by norm_num)⟩

/-- C9: `format_time` decomposes `m` into hours and the remainder carried
down to minutes, seconds and milliseconds, zero-pads each component to
its configured width rendering overflowing components at full width,
omits the hours block (and the minutes block when minutes is also zero)
only when shortening is allowed, and puts `-` before negatives, `+` when
a sign is forced, nothing otherwise — stated as refinement of the
spec-worded `format_time_spec`, plus the 100-hour no-truncation case. -/
theorem C9_format_time_refines_spec (fmt : TimeFormat) (m : Nat) (neg : Bool) :
    fmt.format_time m neg = format_time_spec fmt m neg
    ∧ TimeFormat.dflt.format_time 360000000 false = "100:00:00.000".toList :=
  ⟨format_time_eq_spec fmt m neg, by decide⟩
example : TimeFormat.dflt.format_time 61001 false = "01:01.001".toList := by decide
example : TimeFormat.dflt.format_time 1 false = "00.001".toList := by decide
example : TimeFormat.for_diff.format_time 1500 false = "+01.500".toList := by decide
example : TimeFormat.for_diff.format_time 1500 true = "-01.500".toList := by decide
example : TimeFormat.dflt.format_time 360000000 false = "100:00:00.000".toList := by decide
example : parse_time_string "01:01:01.001".toList = some 3661001 := by decide
example : parse_time_string "00.001".toList = none := by decide


/-- C5: `best_possible_time` equals the recorded split time of the
segment immediately preceding the current one (zero at the first
segment) plus the sum of the golds from the current index to the end,
missing golds contributing zero; at the first segment it equals
`sum_of_best_segments`.  The hypothesis keeps the current index within
the segment list (out-of-range indices panic in the source). -/
theorem C5_best_possible_time_formula (tv : TimerView)
    (_h : tv.current_split_index.getD 0 ≤ tv.segments.length) :
    best_possible_time tv
      = (if tv.current_split_index.getD 0 = 0 then 0
          else ((tv.segments.getD (tv.current_split_index.getD 0 - 1) default).split_time).getD 0)
        + ((tv.segments.drop (tv.current_split_index.getD 0)).map
            (fun s => s.best_segment_time.getD 0)).sum
    ∧ (tv.current_split_index = some 0 →
        best_possible_time tv = sum_of_best_segments tv.segments) := by
  constructor
  · unfold best_possible_time
    by_cases h0 : tv.current_split_index.getD 0 = 0
    · simp [h0, sum_of_best_eq_sum]
    · simp [h0, foldl_best_eq_sum]
  · intro hidx
    simp [best_possible_time, hidx]

theorem C5_best_possible_time_formula_witness :
    tvFixC5.current_split_index.getD 0 ≤ tvFixC5.segments.length ∧
    (best_possible_time tvFixC5
      = (if tvFixC5.current_split_index.getD 0 = 0 then 0
          else ((tvFixC5.segments.getD (tvFixC5.current_split_index.getD 0 - 1)
                  default).split_time).getD 0)
        + ((tvFixC5.segments.drop (tvFixC5.current_split_index.getD 0)).map
            (fun s => s.best_segment_time.getD 0)).sum
    ∧ (tvFixC5.current_split_index = some 0 →
        best_possible_time tvFixC5 = sum_of_best_segments tvFixC5.segments)) :=
  ⟨by decide, C5_best_possible_time_formula tvFixC5 (by decide)⟩

/-- C6: for a finished, non-current segment row, when the newly recorded
marginal segment time is strictly below the stored golden split, the
delta is drawn in the gold color, whatever the delta against the
personal best would otherwise select. -/
theorem C6_new_gold_overrides_color (index : Nat) (segment : Segment)
    (width : Nat) (tv : TimerView) (rp : RenderProperties) (scale : Nat)
    (tw : List Char → Nat) (s g : Nat)
    (hseg : get_segment_time tv index = some s)
    (hgold : (tv.segments.getD index default).best_segment_time = some g)
    (hlt : s < g) :
    (draw_segment_time index segment false width tv rp scale tw).diff_color
      = SplitColor.Gold := by
  unfold draw_segment_time gold_split
  rw [hseg, hgold]
  simp [hlt]

theorem C6_new_gold_overrides_color_witness :
    get_segment_time tvFixGold 0 = some 900
    ∧ (tvFixGold.segments.getD 0 default).best_segment_time = some 1000
    ∧ (900 : Nat) < 1000
    ∧ (draw_segment_time 0 segFixGold false 400 tvFixGold rpFix 1
        (fun t => t.length)).diff_color = SplitColor.Gold :=
  ⟨by decide, by decide, by decide,
    C6_new_gold_overrides_color 0 segFixGold 400 tvFixGold rpFix 1
      (fun t => t.length) 900 1000 (by decide) (by decide) (by decide)⟩

/-- C7: the time shown in a segment row is its personal best when
present; otherwise its own current split time exactly when the segment
has no recorded history entries; with history but no personal best the
row shows the no-time placeholder (`timestamp = none`). -/
theorem C7_displayed_time_policy (index : Nat) (segment : Segment)
    (current : Bool) (width : Nat) (tv : TimerView) (rp : RenderProperties)
    (scale : Nat) (tw : List Char → Nat) :
    (∀ t, segment.personal_best_split_time = some t →
      (draw_segment_time index segment current width tv rp scale tw).timestamp = some t)
    ∧ (segment.personal_best_split_time = none →
        segment.segment_history.length = 0 →
        (draw_segment_time index segment current width tv rp scale tw).timestamp
          = segment.split_time)
    ∧ (segment.personal_best_split_time = none →
        segment.segment_history.length ≠ 0 →
        (draw_segment_time index segment current width tv rp scale tw).timestamp
          = none) := by
  refine ⟨?_, ?_, ?_⟩
  · intro t ht
    unfold draw_segment_time
    simp [ht]
  · intro hpb hlen
    unfold draw_segment_time
    simp [hpb, hlen]
  · intro hpb hlen
    unfold draw_segment_time
    simp [hpb, hlen]

theorem C7_displayed_time_policy_witness :
    (draw_segment_time 0 segFixFresh true 400 tvFix1 rpFix 1
      (fun t => t.length)).timestamp = segFixFresh.split_time :=
  (C7_displayed_time_policy 0 segFixFresh true 400 tvFix1 rpFix 1
    (fun t => t.length)).2.1 rfl rfl

/-- C10 (counterexample): a finished, non-current row over a segment with
no personal best need not render in the loss color — with a recorded
split of 900 ms against a stored gold of 1000 ms the gold override fires,
contradicting "renders ... in the loss color rather than a gain, gold, or
placeholder value". -/
theorem C10_counterexample :
    (tvFixGold.segments.getD 0 default).personal_best_split_time = none
    ∧ (draw_segment_time 0 segFixGold false 400 tvFixGold rpFix 1
        (fun t => t.length)).diff_color ≠ SplitColor.Loss := by decide

/-- C10 (amended): `diff_time` returns the empty string and the loss
color whenever either time is absent (the terminal variant pushes the
empty string); consequently a row over a segment with no personal best
draws an empty delta, in the loss color except when the non-current
new-gold override applies, in which case gold. -/
theorem C10_missing_time_delta :
    (∀ time best : Option Nat, time = none ∨ best = none →
      diff_time time best = ([], SplitColor.Loss))
    ∧ (∀ (fmt : Nat → Bool → List Char) (time best : Option Nat),
        time = none ∨ best = none → terminal_diff_time fmt time best = [])
    ∧ (∀ (index : Nat) (segment : Segment) (current : Bool) (width : Nat)
        (tv : TimerView) (rp : RenderProperties) (scale : Nat)
        (tw : List Char → Nat),
        (tv.segments.getD index default).personal_best_split_time = none →
        (draw_segment_time index segment current width tv rp scale tw).diff_text = []
        ∧ (draw_segment_time index segment current width tv rp scale tw).diff_color
            = (if !current && gold_split tv index then SplitColor.Gold
               else SplitColor.Loss)) := by
  refine ⟨?_, ?_, ?_⟩
  · intro time best hor
    rcases hor with rfl | rfl
    · cases best <;> rfl
    · cases time <;> rfl
  · intro fmt time best hor
    rcases hor with rfl | rfl
    · cases best <;> rfl
    · cases time <;> rfl
  · intro index segment current width tv rp scale tw hpb
    have hdiff : diff_time
        (if current then tv.current_time else segment.split_time)
        (tv.segments.getD index default).personal_best_split_time
        = ([], SplitColor.Loss) := by
      rw [hpb]
      rcases (if current then tv.current_time else segment.split_time) with _ | t <;> rfl
    unfold draw_segment_time
    rw [hdiff]
    by_cases hov : (!current && gold_split tv index) = true
    · simp [hov]
    · simp only [Bool.not_eq_true] at hov
      simp [hov]

theorem C10_missing_time_delta_witness :
    diff_time none (some 3) = ([], SplitColor.Loss) :=
  C10_missing_time_delta.1 none (some 3) (Or.inl rfl)

/-- The history fold of an attempt record: each segment holding a split
time gains exactly one history entry under the new attempt id; the
others are untouched. -/
theorem updateSegments_map_history (a : Int) (prev : Option Nat) (l : List Segment) :
    (updateSegments a prev l).map (fun s => s.segment_history)
      = l.map (fun s => s.segment_history ++
          (match s.split_time with
           | some t => [(a, some t)]
           | none => [])) := by
  induction l generalizing prev with
  | nil => rfl
  | cons s rest ih =>
    cases hsp : s.split_time <;> simp [updateSegments, hsp, ih]

theorem LSTimer.reset_phase (t : LSTimer) (b : Bool) :
    (t.reset b).phase = TimerPhase.NotRunning := by
  cases b <;> rfl

theorem LSTimer.split_attempt_count (t : LSTimer) :
    (t.split).attempt_count = t.attempt_count := by
  simp only [LSTimer.split]
  repeat' split
  all_goals rfl

/-- C3: `reset(false)` followed by `start` leaves the attempt counter,
the attempt history, every segment's history and the persistence counter
unchanged; `reset(true)` persists the run, folds each recorded split time
into that segment's history, increments the attempt counter and appends
the attempt. -/
theorem C3_reset_discard_vs_record (w : WlSplit) :
    (((w.reset false).start).timer.attempt_count = w.timer.attempt_count
      ∧ ((w.reset false).start).timer.attempt_history = w.timer.attempt_history
      ∧ ((w.reset false).start).write_count = w.write_count
      ∧ (((w.reset false).start).timer.segments.map (fun s => s.segment_history))
          = w.timer.segments.map (fun s => s.segment_history))
    ∧ ((w.reset true).write_count = w.write_count + 1
      ∧ ((w.reset true).timer.segments.map (fun s => s.segment_history))
          = w.timer.segments.map (fun s =>
              s.segment_history ++
                (match s.split_time with
                 | some t => [(((w.timer.attempt_count + 1 : Nat) : Int), some t)]
                 | none => []))
      ∧ (w.reset true).timer.attempt_count = w.timer.attempt_count + 1
      ∧ (w.reset true).timer.attempt_history
          = w.timer.attempt_history
            ++ [{ id := w.timer.attempt_count + 1, time := some w.timer.elapsed }]) := by
  refine ⟨⟨?_, ?_, ?_, ?_⟩, ?_, ?_, ?_, ?_⟩
  · simp [WlSplit.reset, WlSplit.start, WlSplit.write_file, LSTimer.reset, LSTimer.start]
  · simp [WlSplit.reset, WlSplit.start, WlSplit.write_file, LSTimer.reset, LSTimer.start]
  · simp [WlSplit.reset, WlSplit.start, WlSplit.write_file, LSTimer.reset, LSTimer.start]
  · simp only [WlSplit.reset, WlSplit.start, WlSplit.write_file, LSTimer.reset, LSTimer.start]
    simp [List.map_map]
  · simp [WlSplit.reset, WlSplit.write_file, LSTimer.reset]
  · simp only [WlSplit.reset, WlSplit.write_file, LSTimer.reset]
    simp [updateSegments_map_history]
  · simp [WlSplit.reset, WlSplit.write_file, LSTimer.reset]
  · simp [WlSplit.reset, WlSplit.write_file, LSTimer.reset]

/-- C8: the `split` wrapper never returns with phase `Ended` (a run-ending
split immediately resets with `update_splits` and persists); no socket
command moves a non-`Ended` state to `Ended`; and a split on the last
segment of a running timer finalizes — `NotRunning` phase, attempt
counter incremented and the run persisted (the reset's save plus the
split wrapper's own). -/
theorem C8_ended_only_transient (w : WlSplit) :
    ((w.split).timer.phase ≠ TimerPhase.Ended)
    ∧ (∀ c : Command, w.timer.phase ≠ TimerPhase.Ended →
        ((w.apply c).timer.phase ≠ TimerPhase.Ended))
    ∧ (w.timer.phase = TimerPhase.Running →
        w.timer.current_split_index = some (w.timer.segments.length - 1) →
        w.timer.segments.length ≠ 0 →
        (w.split).timer.phase = TimerPhase.NotRunning
        ∧ (w.split).timer.attempt_count = w.timer.attempt_count + 1
        ∧ (w.split).write_count = w.write_count + 2) := by
  have hsplit : (w.split).timer.phase ≠ TimerPhase.Ended := by
    unfold WlSplit.split
    show (if ({ w with timer := w.timer.split } : WlSplit).timer.phase = TimerPhase.Ended
          then (({ w with timer := w.timer.split } : WlSplit).reset true).write_file
          else ({ w with timer := w.timer.split } : WlSplit)).timer.phase ≠ TimerPhase.Ended
    split
    · simp [WlSplit.reset, WlSplit.write_file, LSTimer.reset_phase]
    · rename_i hE
      simpa using hE
  refine ⟨hsplit, ?_, ?_⟩
  · intro c hc
    cases c
    case split => exact hsplit
    case start =>
      simp only [WlSplit.apply, WlSplit.start, LSTimer.start]
      split
      · simp
      · simpa using hc
    case skip =>
      simp only [WlSplit.apply, WlSplit.skip, LSTimer.skip_split]
      split
      · split
        · split <;> simpa using hc
        · simpa using hc
      · simpa using hc
    case pause =>
      simp only [WlSplit.apply, WlSplit.pause, LSTimer.toggle_pause]
      split
      · simp
      · split
        · simp
        · simpa using hc
    case reset =>
      simp [WlSplit.apply, WlSplit.reset, WlSplit.write_file, LSTimer.reset_phase]
    case quit =>
      simpa [WlSplit.apply, WlSplit.quit] using hc
  · intro hrun hidx hlen
    have hend : (w.timer.split).phase = TimerPhase.Ended := by
      have hnotlt : ¬ (w.timer.segments.length - 1 + 1 < w.timer.segments.length) := by omega
      simp [LSTimer.split, hrun, hidx, hnotlt]
    have hstep : w.split = (({ w with timer := w.timer.split } : WlSplit).reset true).write_file := by
      unfold WlSplit.split
      rw [if_pos hend]
    rw [hstep]
    refine ⟨?_, ?_, ?_⟩
    · simp [WlSplit.reset, WlSplit.write_file, LSTimer.reset_phase]
    · simp [WlSplit.reset, WlSplit.write_file, LSTimer.reset, LSTimer.split_attempt_count]
    · simp [WlSplit.reset, WlSplit.write_file]


/-- A running, single-segment timer about to take its final split. -/
def wFixLast : WlSplit :=
  { timer :=
      { attempt_count := 2, attempt_history := []
        segments := [segFixGold]
        phase := TimerPhase.Running, current_split_index := some 0
        elapsed := 4242 }
    exit := false, write_count := 7 }

theorem C8_ended_only_transient_witness :
    wFixLast.timer.phase = TimerPhase.Running
    ∧ wFixLast.timer.current_split_index = some (wFixLast.timer.segments.length - 1)
    ∧ wFixLast.timer.segments.length ≠ 0
    ∧ ((wFixLast.split).timer.phase = TimerPhase.NotRunning
        ∧ (wFixLast.split).timer.attempt_count = wFixLast.timer.attempt_count + 1
        ∧ (wFixLast.split).write_count = wFixLast.write_count + 2) :=
  ⟨rfl, rfl, by decide,
    (C8_ended_only_transient wFixLast).2.2 rfl rfl (by decide)⟩

/-- The C2 failing input: one attempt carrying started/ended timestamps
and a parseable time, one segment whose personal best (2000 ms) differs
from its gold (1000 ms), with one history entry. -/
def c2File : RunFileIn :=
  { game_name := "G".toList, category_name := "Any".toList, attempt_count := 1
    attempt_history :=
      [{ id := 1
         started := some "2020-01-01T00:00:00Z".toList
         ended := some "2020-01-01T00:10:00Z".toList
         time := some "00:00:01.000".toList
         pause_time := none }]
    segments :=
      [{ name := "s1".toList
         best_segment_time := some "00:00:01.000".toList
         personal_best_split_time := some "00:00:02.000".toList
         segment_history :=
           [{ name := none, time := some "00:00:01.000".toList, id := some 1 }] }] }

/-- C2: loading `c2File` and saving it back does not preserve the timing
data: the input attempt carries started/ended timestamps and the input
segment a 2000 ms personal best, yet the saved attempt's `started`/`ended`
are `None` (`Run::new` hardcodes them) and the saved "Personal Best"
split-time entry is the formatted 1000 ms gold (`Run::new` formats it
from the `best_segment_time` milliseconds). -/
theorem C2_roundtrip_eval :
    c2File.attempt_history.map (fun a => a.started)
        = [some "2020-01-01T00:00:00Z".toList]
    ∧ c2File.segments.map (fun s => s.personal_best_split_time)
        = [some "00:00:02.000".toList]
    ∧ (file_to_run some c2File).map (fun run =>
        ((RunFile.new run).attempt_history.map (fun a => (a.started, a.ended)),
         (RunFile.new run).segments.map (fun s =>
            s.split_times.map (fun st => st.time))))
      = some ([((none : Option (List Char)), (none : Option (List Char)))],
              [[some "00:00:01.000".toList]]) := by decide

end Wlsplit
